import Mathlib

set_option maxHeartbeats 1000000
set_option maxRecDepth 10000

/-!
Verification development for the structured-extraction engine
(`metagpt/utils/common.py`: `OutputParser`, `CodeParser`) and the
incremental artifact pipeline (`metagpt/actions/project_management.py`:
`WriteTasks`).  All string-processing primitives of the Python standard
library that the source relies on (`str.split`, `str.strip`,
`str.splitlines`, substring membership, `str.find`/`str.rfind`,
`ast.literal_eval`, the two regular expressions used for fences and
tags) are modelled explicitly on `List Char` so that every definition is
executable and provable.
-/

/-- Whitespace test modelling the whitespace class used by Python's
`str.strip` and by the tokenizer of `ast.literal_eval` (restricted to
space, tab, newline and carriage return, the characters that occur in
the data handled by this code). -/
def isWsC (c : Char) : Bool :=
  c == ' ' || c == '\t' || c == '\n' || c == '\r'

/-- Drop leading whitespace characters. -/
def skipWs (cs : List Char) : List Char :=
  cs.dropWhile isWsC

/-- Models Python `str.strip`: remove leading and trailing whitespace. -/
def trimChars (cs : List Char) : List Char :=
  ((cs.dropWhile isWsC).reverse.dropWhile isWsC).reverse

/-- Models the Python substring test `sub in s` (for a non-empty `sub`;
an empty `sub` is a member of every string, as in Python). -/
def pyContainsL : List Char → List Char → Bool
  | _, [] => true
  | [], _ :: _ => false
  | c :: rest, s :: ss =>
    if (c :: rest).take (s :: ss).length = s :: ss then true
    else pyContainsL rest (s :: ss)

/-- Substring test on `String`, modelling Python's `sub in s`. -/
def strContainsSub (s sub : String) : Bool :=
  pyContainsL s.data sub.data

/-- Worker for `pySplitL`: scans `rem` for occurrences of the separator
`s :: ss`, accumulating the current piece in reverse in `acc`.  The
fuel argument makes the recursion structural; the caller passes enough
fuel for the whole input, and when fuel runs out the rest of the input
is flushed into the current piece (which coincides with the correct
result when no separator occurs in it). -/
def pySplitGo (s : Char) (ss : List Char) : Nat → List Char → List Char → List (List Char)
  | 0, acc, rem =>
    match rem with
    | [] => [acc.reverse]
    | _ :: _ => [acc.reverse ++ rem]
  | _ + 1, acc, [] => [acc.reverse]
  | fuel + 1, acc, c :: rest =>
    if (c :: rest).take (s :: ss).length = s :: ss then
      acc.reverse :: pySplitGo s ss fuel [] (rest.drop ss.length)
    else pySplitGo s ss fuel (c :: acc) rest

/-- Models Python `str.split(sep)` for a non-empty separator: split on
every non-overlapping occurrence, keeping empty pieces. -/
def pySplitL (sep cs : List Char) : List (List Char) :=
  match sep with
  | [] => [cs]
  | s :: ss => pySplitGo s ss cs.length [] cs

/-- Models Python `str.split("\n", 1)` when the unpacking
`a, b = s.split("\n", 1)` is performed: `none` when the string contains
no newline (in Python the unpacking raises `ValueError`), otherwise the
pieces before and after the first newline. -/
def splitFirstNl : List Char → Option (List Char × List Char)
  | [] => none
  | c :: rest =>
    if c = '\n' then some ([], rest)
    else (splitFirstNl rest).map (fun p => (c :: p.1, p.2))

/-- Does `cs` start with `pat`? -/
def startsWithL (cs pat : List Char) : Bool :=
  decide (cs.take pat.length = pat)

/-- Index of the first occurrence of character `c`, models Python
`str.find` restricted to a single-character needle (`none` models the
return value `-1`). -/
def firstIdx (c : Char) : List Char → Option Nat
  | [] => none
  | x :: xs => if x = c then some 0 else (firstIdx c xs).map (· + 1)

/-- Index of the last occurrence of character `c`, models Python
`str.rfind` restricted to a single-character needle. -/
def lastIdx (c : Char) (cs : List Char) : Option Nat :=
  (firstIdx c cs.reverse).map (fun i => cs.length - 1 - i)

/-- Association-list lookup by key, modelling Python `dict` indexing
and `dict.get`. -/
def alookup {α : Type} : List (String × α) → String → Option α
  | [], _ => none
  | p :: rest, k => if p.1 = k then some p.2 else alookup rest k

/-- Association-list update modelling Python `d[k] = v`: an existing
key keeps its position and receives the new value, a new key is
appended (Python dicts preserve insertion order). -/
def assocSet {α : Type} (l : List (String × α)) (k : String) (v : α) : List (String × α) :=
  if (alookup l k).isSome then l.map (fun p => if p.1 = k then (k, v) else p)
  else l ++ [(k, v)]

/-- Models Python `str.splitlines` for newline-separated text: like
splitting on `"\n"` but without a trailing empty piece (so `""` has no
lines at all). -/
def pySplitlines (s : String) : List String :=
  let l := (pySplitL ['\n'] s.data).map String.mk
  if l.getLast? = some ("") then l.dropLast else l

/-- Numeric value of a run of decimal digits. -/
def digitsVal (ds : List Char) : Nat :=
  ds.foldl (fun a c => a * 10 + (c.toNat - 48)) 0

/-- The backquote character (the fence marker character of Markdown). -/
def btickC : Char := Char.ofNat 96

/-- The single-quote character. -/
def squoteC : Char := Char.ofNat 39

/-- The double-quote character. -/
def dquoteC : Char := Char.ofNat 34

/-- The backslash character. -/
def bslashC : Char := Char.ofNat 92

/-- Python values produced by `ast.literal_eval` as used by the
extraction code: lists, dicts, sets, tuples, strings, integers,
booleans and `None`.  Sets keep their elements in syntactic order;
floating point literals are outside the model (the inputs handled by
the claims are integer-valued). -/
inductive Value : Type where
  | vNone : Value
  | vBool : Bool → Value
  | vInt : Int → Value
  | vStr : String → Value
  | vList : List Value → Value
  | vTuple : List Value → Value
  | vSet : List Value → Value
  | vDict : List (Value × Value) → Value

/-- Is the value a Python `list`?  Models `isinstance(v, list)`. -/
def Value.isList : Value → Bool
  | .vList _ => true
  | _ => false

/-- Is the value a Python `dict`?  Models `isinstance(v, dict)`. -/
def Value.isDict : Value → Bool
  | .vDict _ => true
  | _ => false

/-- Escape map for string literals inside `ast.literal_eval` (the
escapes that occur in the handled data). -/
def escMap (e : Char) : Option Char :=
  if e = bslashC then some bslashC
  else if e = squoteC then some squoteC
  else if e = dquoteC then some dquoteC
  else if e = 'n' then some '\n'
  else if e = 't' then some '\t'
  else none

/-- Parse the rest of a quoted string literal (after the opening quote
`q`), returning the decoded characters and the remaining input. -/
def parseStrRest (q : Char) : Nat → List Char → Option (List Char × List Char)
  | 0, _ => none
  | _ + 1, [] => none
  | fuel + 1, c :: rest =>
    if c = q then some ([], rest)
    else if c = bslashC then
      match rest with
      | [] => none
      | e :: rest2 =>
        match escMap e with
        | some ec => (parseStrRest q fuel rest2).map (fun p => (ec :: p.1, p.2))
        | none => none
    else (parseStrRest q fuel rest).map (fun p => (c :: p.1, p.2))

/-- Mode of the recursive-descent literal parser: a single value, a
comma-separated element list up to a closing delimiter, the remaining
entries of a dict, or the tail of an unparenthesised top-level tuple. -/
inductive PMode : Type where
  | val : PMode
  | items : Char → PMode
  | dRest : PMode
  | bareTail : PMode

/-- Result of one parser step. -/
inductive PRes : Type where
  | rVal : Value → PRes
  | rVals : List Value → PRes
  | rPairs : List (Value × Value) → PRes

/-- Recursive-descent parser modelling `ast.literal_eval` on the
literal grammar (nested lists, dicts, sets, tuples, single- and
double-quoted strings, integers, `True`/`False`/`None`), with a fuel
argument for structural recursion. -/
def parseF : Nat → PMode → List Char → Option (PRes × List Char)
  | 0, _, _ => none
  | fuel + 1, PMode.val, cs =>
    match skipWs cs with
    | [] => none
    | c :: rest =>
      if c = '[' then
        match parseF fuel (PMode.items ']') rest with
        | some (PRes.rVals vs, r) => some (PRes.rVal (Value.vList vs), r)
        | _ => none
      else if c = '{' then
        match skipWs rest with
        | [] => none
        | c2 :: r2 =>
          if c2 = '}' then some (PRes.rVal (Value.vDict []), r2)
          else
            match parseF fuel PMode.val rest with
            | some (PRes.rVal k, r3) =>
              (match skipWs r3 with
               | [] => none
               | c3 :: r4 =>
                 if c3 = ':' then
                   (match parseF fuel PMode.val r4 with
                    | some (PRes.rVal v, r5) =>
                      (match parseF fuel PMode.dRest r5 with
                       | some (PRes.rPairs es, r6) =>
                         some (PRes.rVal (Value.vDict ((k, v) :: es)), r6)
                       | _ => none)
                    | _ => none)
                 else if c3 = ',' then
                   (match parseF fuel (PMode.items '}') r4 with
                    | some (PRes.rVals vs, r5) => some (PRes.rVal (Value.vSet (k :: vs)), r5)
                    | _ => none)
                 else if c3 = '}' then some (PRes.rVal (Value.vSet [k]), r4)
                 else none)
            | _ => none
      else if c = '(' then
        match skipWs rest with
        | [] => none
        | c2 :: r2 =>
          if c2 = ')' then some (PRes.rVal (Value.vTuple []), r2)
          else
            match parseF fuel PMode.val rest with
            | some (PRes.rVal v, r3) =>
              (match skipWs r3 with
               | [] => none
               | c3 :: r4 =>
                 if c3 = ',' then
                   (match parseF fuel (PMode.items ')') r4 with
                    | some (PRes.rVals vs, r5) => some (PRes.rVal (Value.vTuple (v :: vs)), r5)
                    | _ => none)
                 else if c3 = ')' then some (PRes.rVal v, r4)
                 else none)
            | _ => none
      else if c = squoteC ∨ c = dquoteC then
        match parseStrRest c fuel rest with
        | some (sc, r) => some (PRes.rVal (Value.vStr (String.mk sc)), r)
        | none => none
      else if c = '-' then
        (let ds := rest.takeWhile Char.isDigit
         if ds = [] then none
         else some (PRes.rVal (Value.vInt (-(digitsVal ds : Int))), rest.dropWhile Char.isDigit))
      else if c = '+' then
        (let ds := rest.takeWhile Char.isDigit
         if ds = [] then none
         else some (PRes.rVal (Value.vInt (digitsVal ds)), rest.dropWhile Char.isDigit))
      else if c.isDigit then
        (let ds := (c :: rest).takeWhile Char.isDigit
         some (PRes.rVal (Value.vInt (digitsVal ds)), (c :: rest).dropWhile Char.isDigit))
      else if (c :: rest).take 4 = ['T', 'r', 'u', 'e'] then
        some (PRes.rVal (Value.vBool true), (c :: rest).drop 4)
      else if (c :: rest).take 5 = ['F', 'a', 'l', 's', 'e'] then
        some (PRes.rVal (Value.vBool false), (c :: rest).drop 5)
      else if (c :: rest).take 4 = ['N', 'o', 'n', 'e'] then
        some (PRes.rVal Value.vNone, (c :: rest).drop 4)
      else none
  | fuel + 1, PMode.items close, cs =>
    match skipWs cs with
    | [] => none
    | c :: rest =>
      if c = close then some (PRes.rVals [], rest)
      else
        match parseF fuel PMode.val (c :: rest) with
        | some (PRes.rVal v, r) =>
          (match skipWs r with
           | [] => none
           | c2 :: r2 =>
             if c2 = ',' then
               (match parseF fuel (PMode.items close) r2 with
                | some (PRes.rVals vs, r3) => some (PRes.rVals (v :: vs), r3)
                | _ => none)
             else if c2 = close then some (PRes.rVals [v], r2)
             else none)
        | _ => none
  | fuel + 1, PMode.dRest, cs =>
    match skipWs cs with
    | [] => none
    | c :: rest =>
      if c = '}' then some (PRes.rPairs [], rest)
      else if c = ',' then
        (match skipWs rest with
         | [] => none
         | c2 :: r2 =>
           if c2 = '}' then some (PRes.rPairs [], r2)
           else
             match parseF fuel PMode.val rest with
             | some (PRes.rVal k, r3) =>
               (match skipWs r3 with
                | [] => none
                | c3 :: r4 =>
                  if c3 = ':' then
                    (match parseF fuel PMode.val r4 with
                     | some (PRes.rVal v, r5) =>
                       (match parseF fuel PMode.dRest r5 with
                        | some (PRes.rPairs es, r6) => some (PRes.rPairs ((k, v) :: es), r6)
                        | _ => none)
                     | _ => none)
                  else none)
             | _ => none)
      else none
  | fuel + 1, PMode.bareTail, cs =>
    match skipWs cs with
    | [] => some (PRes.rVals [], [])
    | c :: rest =>
      match parseF fuel PMode.val (c :: rest) with
      | some (PRes.rVal v, r) =>
        (match skipWs r with
         | [] => some (PRes.rVals [v], [])
         | c2 :: r2 =>
           if c2 = ',' then
             (match parseF fuel PMode.bareTail r2 with
              | some (PRes.rVals vs, r3) => some (PRes.rVals (v :: vs), r3)
              | _ => none)
           else none)
      | _ => none

/-- Models `ast.literal_eval` on character lists: parse one value and
require only whitespace after it, except that a top-level comma
continues an unparenthesised tuple (as in Python, where
`literal_eval("[1],[2]")` yields a tuple).  `none` models the
`ValueError`/`SyntaxError` raised on malformed input. -/
def literalEvalL (cs : List Char) : Option Value :=
  match parseF (4 * cs.length + 4) PMode.val cs with
  | some (PRes.rVal v, rest) =>
    (match skipWs rest with
     | [] => some v
     | c :: r2 =>
       if c = ',' then
         match parseF (4 * cs.length + 4) PMode.bareTail r2 with
         | some (PRes.rVals vs, r3) =>
           if skipWs r3 = [] then some (Value.vTuple (v :: vs)) else none
         | _ => none
       else none)
  | _ => none

/-- Models `ast.literal_eval` on strings. -/
def literalEval (s : String) : Option Value :=
  literalEvalL s.data

/-- The literal fence opener of the regex pattern used by both
`OutputParser.parse_code` and `CodeParser.parse_code`: three backquotes
followed by the language tag. -/
def fenceLit (lang : String) : List Char :=
  btickC :: btickC :: btickC :: lang.data

/-- Length of the run of leading whitespace. -/
def wsRunLen (cs : List Char) : Nat :=
  (cs.takeWhile isWsC).length

/-- Smallest offset at which three consecutive backquotes start, if
any (the non-greedy capture of the fence regex stops at the earliest
closing fence). -/
def findTripleTick (cs : List Char) : Option Nat :=
  (List.range (cs.length + 1)).find? (fun b => startsWithL (cs.drop b) [btickC, btickC, btickC])

/-- Backtracking tail of the fence regex after the literal opener: skip
a shortest-first span (the non-greedy dot-star), then a longest-first
non-empty whitespace run, then capture up to the earliest closing
triple backquote.  This reproduces the match order of Python's `re`
engine for the pattern tail under `re.DOTALL`. -/
def fenceMatchAfter (rest : List Char) : Option (List Char) :=
  (List.range (rest.length + 1)).findSome? (fun a =>
    let r := rest.drop a
    let maxw := wsRunLen r
    ((List.range maxw).map (fun i => maxw - i)).findSome? (fun w =>
      (findTripleTick (r.drop w)).map (fun b => (r.drop w).take b)))

/-- Models `re.search` of the fence pattern (three backquotes, the
language tag, a non-greedy span, mandatory whitespace, a non-greedy
captured span, three backquotes) with `re.DOTALL`, returning the
captured group: leftmost match start first, then the backtracking
order of `fenceMatchAfter`. -/
def fenceSearch (lang : String) (text : String) : Option String :=
  let cs := text.data
  ((List.range (cs.length + 1)).findSome? (fun s =>
    if startsWithL (cs.drop s) (fenceLit lang) then
      fenceMatchAfter (cs.drop (s + (fenceLit lang).length))
    else none)).map String.mk

/-- The literal opening marker of the tag-extraction regex. -/
def openTagL (tag : String) : List Char :=
  '[' :: tag.data ++ [']']

/-- The literal closing marker of the tag-extraction regex. -/
def closeTagL (tag : String) : List Char :=
  '[' :: '/' :: tag.data ++ [']']

/-- Models `re.search` of the non-greedy tag pattern with `re.DOTALL`:
the leftmost opening marker that is followed by a closing marker wins,
and the captured interior ends at the earliest closing marker. -/
def tagSearch (tag : String) (cs : List Char) : Option (List Char) :=
  (List.range (cs.length + 1)).findSome? (fun s =>
    if startsWithL (cs.drop s) (openTagL tag) then
      ((List.range (cs.length + 1)).find? (fun b =>
        startsWithL ((cs.drop (s + (openTagL tag).length)).drop b) (closeTagL tag))).map
        (fun b => (cs.drop (s + (openTagL tag).length)).take b)
    else none)

/-- The fixed two-character heading marker on which both block
segmenters split their input. -/
def headingMarker : List Char := ['#', '#']

namespace OutputParser

/-- Worker of `OutputParser.parse_blocks`, processing the pieces
produced by splitting on the heading marker.  `none` models the
exceptions of the source: the `ValueError` of `block.split("\n", 1)`
when a non-blank piece has no newline, and the `IndexError` of
`block_title[-1]` when the first line is empty. -/
def pbsGo : List (List Char) → List (String × String) → Option (List (String × String))
  | [], acc => some acc
  | b :: rest, acc =>
    if trimChars b = [] then pbsGo rest acc
    else
      match splitFirstNl b with
      | none => none
      | some (t, c) =>
        match t.getLast? with
        | none => none
        | some ch =>
          let t2 := if ch = ':' then t.dropLast else t
          pbsGo rest (assocSet acc (String.mk (trimChars t2)) (String.mk (trimChars c)))

/-- Models `OutputParser.parse_blocks`: split the text on `"##"`, skip
blank pieces, take the first line of each piece as the title (dropping
one trailing `":"` when the raw first line ends with it) and the rest
as the body, both stripped.  `none` models an uncaught exception. -/
def parse_blocks (text : String) : Option (List (String × String)) :=
  pbsGo (pySplitL headingMarker text.data) []

/-- Models `OutputParser.parse_code`: search for the first fenced code
region and return the captured interior; `none` models the bare
`Exception` raised when no fence matches. -/
def parse_code (text : String) (lang : String) : Option String :=
  fenceSearch lang text

/-- Models the `re.search` of `OutputParser.parse_file_list` for the
pattern of an optional assignment prefixed bracketed list, returning
the bracketed group: the span runs from an opening bracket to the last
closing bracket of the text, where the opening bracket is the last one
before that closing bracket when an `"="` precedes some such opening
bracket (the greedy optional assignment group), and the first one
otherwise. -/
def pflSearch (text : String) : Option String :=
  let cs := text.data
  match lastIdx ']' cs with
  | none => none
  | some close =>
    let opens := (List.range close).filter (fun o => decide (cs.getD o ' ' = '['))
    let hasEq := opens.any (fun o => (List.range o).any (fun e => decide (cs.getD e ' ' = '=')))
    if hasEq then (opens.getLast?).map (fun o => String.mk ((cs.drop o).take (close + 1 - o)))
    else (opens.head?).map (fun o => String.mk ((cs.drop o).take (close + 1 - o)))

/-- Models `OutputParser.parse_file_list`: extract the bracketed list
span and evaluate it as a literal; when the regex does not match, fall
back to splitting the text on newlines into one item per line.  `none`
models the exception propagating out of `ast.literal_eval`. -/
def parse_file_list (text : String) : Option Value :=
  match pflSearch text with
  | some s => literalEvalL s.data
  | none => some (Value.vList (((pySplitL ['\n'] text.data).map String.mk).map Value.vStr))

/-- Models `OutputParser.extract_content`: capture the span between
the literal markers of the tag (default `"CONTENT"`), trimmed; when the
pattern does not match, return the fixed sentinel string of the
source. -/
def extract_content (text : String) (tag : String) : String :=
  match tagSearch tag text.data with
  | some inner => String.mk (trimChars inner)
  | none => "No content found between [CONTENT] and [/CONTENT] tags."

end OutputParser

/-- The two shapes `OutputParser.extract_struct` can be asked for. -/
inductive SType : Type where
  | sList : SType
  | sDict : SType
deriving DecidableEq, Repr

/-- The opening delimiter of the requested shape. -/
def openDelim : SType → Char
  | .sList => '['
  | .sDict => '{'

/-- The closing delimiter of the requested shape. -/
def closeDelim : SType → Char
  | .sList => ']'
  | .sDict => '}'

/-- The empty container returned when no delimiter pair is found. -/
def emptyContainer : SType → Value
  | .sList => Value.vList []
  | .sDict => Value.vDict []

/-- Error raised by `OutputParser.extract_struct`: the source raises a
`ValueError` when the parsed value is neither a list nor a dict, and
re-raises parse failures of `ast.literal_eval`; both reach the caller
as exceptions, distinguished here by constructor. -/
inductive ExErr : Type where
  | shapeMismatch : ExErr
  | malformedLiteral : ExErr
deriving DecidableEq, Repr

/-- Does the parsed value have the requested top-level shape? -/
def shapeMatches : SType → Value → Bool
  | .sList, v => v.isList
  | .sDict, v => v.isDict

/-- Models `OutputParser.extract_struct`: slice from the first opening
delimiter of the requested shape to the last closing delimiter, parse
the span with `ast.literal_eval`, return the value when it is a list
or dict and fail otherwise; when either delimiter is absent, return
the empty container of the requested shape (the source also logs a
diagnostic in that branch). -/
def extract_struct (text : String) (dt : SType) : Except ExErr Value :=
  let cs := text.data
  match firstIdx (openDelim dt) cs, lastIdx (closeDelim dt) cs with
  | some s, some e =>
    (match literalEvalL ((cs.drop s).take (e + 1 - s)) with
     | some v => if v.isList || v.isDict then Except.ok v else Except.error ExErr.shapeMismatch
     | none => Except.error ExErr.malformedLiteral)
  | _, _ => Except.ok (emptyContainer dt)

namespace CodeParser

/-- Worker of `CodeParser.parse_blocks`: like the `OutputParser`
variant but total, since a piece with no newline becomes a title with
an empty body and no trailing-colon handling is performed. -/
def cbsGo : List (List Char) → List (String × String) → List (String × String)
  | [], acc => acc
  | b :: rest, acc =>
    if trimChars b = [] then cbsGo rest acc
    else
      match splitFirstNl b with
      | none => cbsGo rest (assocSet acc (String.mk (trimChars b)) "")
      | some (t, c) => cbsGo rest (assocSet acc (String.mk (trimChars t)) (String.mk (trimChars c)))

/-- Models `CodeParser.parse_blocks`: split on `"##"`, skip blank
pieces, first line is the title and the remainder the body, both
stripped; a piece with no newline yields an empty body. -/
def parse_blocks (text : String) : List (String × String) :=
  cbsGo (pySplitL headingMarker text.data) []

/-- Worker of `CodeParser.parse_block`: return the body of the first
block whose title contains the requested title as a substring, or the
empty string. -/
def pbGo (block : String) : List (String × String) → String
  | [] => ""
  | (k, v) :: rest => if pyContainsL k.data block.data then v else pbGo block rest

/-- Models `CodeParser.parse_block`: segment the text and return the
body of the first block whose title contains `block` as a substring;
an empty string when no title matches. -/
def parse_block (block : String) (text : String) : String :=
  pbGo block (parse_blocks text)

/-- Models `CodeParser.parse_code`: when a block title is given,
restrict the search to that block's body via `parse_block`; then
search for the first fence and return the captured interior, falling
back to the searched text itself when no fence matches (the source
logs the failure and "just assume original text is code"). -/
def parse_code (block : String) (text : String) (lang : String) : String :=
  let t := if block ≠ "" then parse_block block text else text
  match fenceSearch lang t with
  | some code => code
  | none => t

end CodeParser

/-- The declared type of a schema field in the mapping handed to
`OutputParser.parse_data_with_mapping`.  `tList` models the three
list-like annotations the source tests for (`List[str]`,
`List[Tuple[str, str]]`, `List[List[str]]`); `tStr` models every other
annotation, for which no list parse is attempted.  The source also
unwraps a tuple-valued mapping entry to its first component before the
test; the model takes the mapping entries already unwrapped. -/
inductive TypeTag : Type where
  | tList : TypeTag
  | tStr : TypeTag
deriving DecidableEq, Repr

/-- A parsed field value: either pass-through text or the result of
the list parse. -/
inductive FieldVal : Type where
  | fvStr : String → FieldVal
  | fvVal : Value → FieldVal

/-- Models the `try`/`except` around `OutputParser.parse_code` in
`parse_data_with_mapping` (and `parse_data`): strip the first fence
when one matches, otherwise keep the content unchanged. -/
def fenceOrSelf (content : String) : String :=
  match OutputParser.parse_code content "" with
  | some c => c
  | none => content

/-- Per-block step of `OutputParser.parse_data_with_mapping`: attempt
the fence strip, look the block title up in the mapping (exact key
lookup, as the source's `mapping.get(block)`), and for a list-typed
field attempt the list parse, keeping the fence-stripped text when it
raises. -/
def pdwmBlock (mapping : List (String × TypeTag)) (p : String × String) : String × FieldVal :=
  let content := fenceOrSelf p.2
  match alookup mapping p.1 with
  | some TypeTag.tList =>
    (p.1,
      match OutputParser.parse_file_list content with
      | some v => FieldVal.fvVal v
      | none => FieldVal.fvStr content)
  | _ => (p.1, FieldVal.fvStr content)

/-- Models `OutputParser.parse_data_with_mapping`: restrict the input
to the `[CONTENT]`/`[/CONTENT]` span via `extract_content`, segment it
into blocks, and process every block with `pdwmBlock`.  `none` models
an exception escaping `parse_blocks`. -/
def parse_data_with_mapping (data : String) (mapping : List (String × TypeTag)) :
    Option (List (String × FieldVal)) :=
  match OutputParser.parse_blocks (OutputParser.extract_content data ("CONTENT")) with
  | none => none
  | some bd => some (bd.map (pdwmBlock mapping))

/-- A document of the artifact store.  Modelled from the spec:
`metagpt.schema.Document` is not under `src/`; the spec's data model
gives its identity as `(root_path, filename)` with a text-blob
`content`. -/
structure Document where
  root_path : String
  filename : String
  content : String
deriving DecidableEq, Repr

/-- Modelled from the spec: `Document.root_relative_path` of
`metagpt.schema` is not under `src/`; it denotes the document's path
(root and filename), recorded as the dependency edge target at save
time. -/
def rootRelativePath (d : Document) : String :=
  d.root_path ++ "/" ++ d.filename

/-- Modelled from the spec: the constant `TASK_FILE_REPO` of
`metagpt.const` (the derived store's root) is not under `src/`; its
exact value is irrelevant to the claims. -/
def TASK_FILE_REPO : String := "docs/tasks"

/-- Models the module constant `NEW_REQ_TEMPLATE` applied to its two
placeholders, exactly as `NEW_REQ_TEMPLATE.format(context=...,
old_tasks=...)` renders it: the existing derived content under the
heading `### Legacy Content`, then the new upstream content under the
heading `### New Requirements`. -/
def NEW_REQ_TEMPLATE (old_tasks context : String) : String :=
  "\n### Legacy Content\n" ++ old_tasks ++ "\n\n### New Requirements\n" ++ context ++ "\n"

/-- External collaborators of the pipeline.  Modelled from the spec:
the generation and merge callbacks wrap `PM_NODE.fill` (an LLM call,
module `project_management_an` not under `src/`) composed with
`instruct_content.json(...)`, each a black box from context string to
serialized derived content; `parsePackages` models
`json.loads(content).get("Required Python third-party packages",
set())` of the standard library, with `none` modelling a `json.loads`
exception on non-JSON content. -/
structure PipelineEnv where
  generate : String → String
  merge : String → String
  parsePackages : String → Option (List String)

/-- The file repositories touched by one `WriteTasks` run.  Modelled
from the spec: `FileRepository` is not under `src/`; the spec's
ArtifactStore interface exposes changed-file enumeration, get-by-name
(absent allowed) and save-with-dependencies, modelled as association
lists. `requirements` is the content of the aggregation file (`none`
when the file is absent), `taskPdfs` the secondary export sink. -/
structure FileRepos where
  systemDesigns : List (String × Document)
  tasks : List (String × Document)
  taskDeps : List (String × List String)
  requirements : Option String
  taskPdfs : List (String × String)
deriving DecidableEq, Repr

/-- Pipeline errors: `missingUpstream` models the `AttributeError`
raised when the upstream system-design document is absent and its
`.content` is accessed; `badPackagesJson` the `json.loads` failure in
`_update_requirements`. -/
inductive PipeErr : Type where
  | missingUpstream : PipeErr
  | badPackagesJson : PipeErr
deriving DecidableEq, Repr

/-- Models the set-union core of `WriteTasks._update_requirements`
(the lines after `json.loads`): start from the set of new items, then
add every non-empty line of the existing content.  The Python `set` is
modelled as a duplicate-free list; its iteration order is not
guaranteed by the source. -/
def addAll (newItems : List String) (existingContent : String) : List String :=
  (newItems ++ (pySplitlines existingContent).filter (fun p => p ≠ "")).dedup

/-- Models `WriteTasks._update_requirements`: parse the saved task
document's JSON for the package list, read the aggregation file
(an absent file is treated as empty content), union, and save the
newline-joined result. -/
def updateRequirements (env : PipelineEnv) (repos : FileRepos) (doc : Document) :
    Except PipeErr FileRepos :=
  match env.parsePackages doc.content with
  | none => Except.error PipeErr.badPackagesJson
  | some pkgs =>
    let existing := match repos.requirements with
      | some c => c
      | none => ""
    Except.ok { repos with requirements := some (String.intercalate "\n" (addAll pkgs existing)) }

/-- Models `WriteTasks._update_tasks` for one filename: load the
upstream system design (absence raises) and the current task document
(absence allowed); merge via the `NEW_REQ_TEMPLATE` context when a
task document exists, generate from the upstream content otherwise;
save the result with a dependency edge to the upstream document's
path; then run the requirements aggregation and the secondary export
sink. -/
def updateTasks (env : PipelineEnv) (repos : FileRepos) (filename : String) :
    Except PipeErr (Document × FileRepos) :=
  match alookup repos.systemDesigns filename with
  | none => Except.error PipeErr.missingUpstream
  | some sd =>
    let taskDoc : Document :=
      match alookup repos.tasks filename with
      | some td => { td with content := env.merge (NEW_REQ_TEMPLATE td.content sd.content) }
      | none =>
        { root_path := TASK_FILE_REPO, filename := filename, content := env.generate sd.content }
    let repos1 : FileRepos :=
      { repos with
        tasks := assocSet repos.tasks filename taskDoc,
        taskDeps := assocSet repos.taskDeps filename [rootRelativePath sd] }
    match updateRequirements env repos1 taskDoc with
    | Except.error e => Except.error e
    | Except.ok repos2 =>
      Except.ok (taskDoc, { repos2 with taskPdfs := assocSet repos2.taskPdfs filename taskDoc.content })

/-- The first loop of `WriteTasks.run`, over the changed system
designs: process every filename in order, recording the produced
document; an exception anywhere aborts the whole run (the source has
no handler around `_update_tasks`). -/
def runFold1 (env : PipelineEnv) :
    List String → FileRepos → List (String × Document) →
    Except PipeErr (List (String × Document) × FileRepos)
  | [], repos, acc => Except.ok (acc, repos)
  | f :: rest, repos, acc =>
    match updateTasks env repos f with
    | Except.error e => Except.error e
    | Except.ok (doc, repos2) => runFold1 env rest repos2 (assocSet acc f doc)

/-- The second loop of `WriteTasks.run`, over the changed task files:
a filename already present in the accumulated mapping is skipped,
every other one is processed like in the first loop. -/
def runFold2 (env : PipelineEnv) :
    List String → FileRepos → List (String × Document) →
    Except PipeErr (List (String × Document) × FileRepos)
  | [], repos, acc => Except.ok (acc, repos)
  | f :: rest, repos, acc =>
    if (alookup acc f).isSome then runFold2 env rest repos acc
    else
      match updateTasks env repos f with
      | Except.error e => Except.error e
      | Except.ok (doc, repos2) => runFold2 env rest repos2 (assocSet acc f doc)

/-- Models `WriteTasks.run`: process the changed system designs, then
the changed task files not already processed, and return the mapping
of filename to produced document together with the final store state.
An exception in either loop propagates and aborts the whole batch. -/
def runWriteTasks (env : PipelineEnv) (changedSystemDesigns changedTasks : List String)
    (repos : FileRepos) : Except PipeErr (List (String × Document) × FileRepos) :=
  match runFold1 env changedSystemDesigns repos [] with
  | Except.error e => Except.error e
  | Except.ok (acc, repos1) => runFold2 env changedTasks repos1 acc

/-- Is the run an error?  (Observation used to state batch-abort
behaviour without naming the payload.) -/
def isErrorE {ε α : Type} : Except ε α → Bool
  | Except.error _ => true
  | Except.ok _ => false

/-- Sample environment for concrete pipeline runs: tagging callbacks
and a package parser that always yields the empty list. -/
def wEnv : PipelineEnv :=
  { generate := fun c => "G:" ++ c, merge := fun c => "M:" ++ c,
    parsePackages := fun _ => some [] }

/-- Sample upstream system-design document. -/
def wSd : Document :=
  { root_path := "docs/system_design", filename := "f", content := "SD" }

/-- Sample store state: one upstream document, no derived documents,
no aggregation file. -/
def wRepos : FileRepos :=
  { systemDesigns := [("f", wSd)], tasks := [], taskDeps := [],
    requirements := none, taskPdfs := [] }

/-- The derived document `updateTasks wEnv wRepos "f"` produces. -/
def wDoc : Document :=
  { root_path := TASK_FILE_REPO, filename := "f", content := "G:" ++ "SD" }

/-- The store state after `updateTasks wEnv wRepos "f"`. -/
def wRepos1 : FileRepos :=
  { systemDesigns := [("f", wSd)], tasks := [("f", wDoc)],
    taskDeps := [("f", ["docs/system_design/f"])],
    requirements := some "", taskPdfs := [("f", "G:" ++ "SD")] }

theorem pySplitGo_no_sep (s : Char) (ss : List Char) :
    ∀ (cs : List Char) (fuel : Nat) (acc : List Char),
      pyContainsL cs (s :: ss) = false →
      pySplitGo s ss fuel acc cs = [acc.reverse ++ cs] := by
  intro cs
  induction cs with
  | nil =>
    intro fuel acc _
    cases fuel <;> simp [pySplitGo]
  | cons c rest ih =>
    intro fuel acc h
    rw [pyContainsL] at h
    split at h
    · exact absurd h (by simp)
    · cases fuel with
      | zero => simp [pySplitGo]
      | succ n =>
        rw [pySplitGo]
        rw [if_neg (by assumption)]
        rw [ih n (c :: acc) h]
        simp

theorem pySplitL_no_sep (s : Char) (ss : List Char) (cs : List Char)
    (h : pyContainsL cs (s :: ss) = false) :
    pySplitL (s :: ss) cs = [cs] := by
  rw [pySplitL]
  rw [pySplitGo_no_sep s ss cs cs.length [] h]
  simp

theorem pySplitGo_sep_head (s : Char) (ss : List Char) (fuel : Nat) (acc cs : List Char) :
    pySplitGo s ss (fuel + 1) acc ((s :: ss) ++ cs) =
      acc.reverse :: pySplitGo s ss fuel [] cs := by
  show pySplitGo s ss (fuel + 1) acc (s :: (ss ++ cs)) = _
  rw [pySplitGo]
  rw [if_pos]
  · rw [List.drop_left]
  · show (s :: (ss ++ cs)).take (ss.length + 1) = s :: ss
    rw [List.take_cons]
    · simp [List.take_left]
    · omega

theorem alookup_map_upd_self {α : Type} (k : String) (v : α) :
    ∀ l : List (String × α), (alookup l k).isSome →
      alookup (l.map (fun p => if p.1 = k then (k, v) else p)) k = some v := by
  intro l
  induction l with
  | nil => intro h; simp [alookup] at h
  | cons p rest ih =>
    intro h
    by_cases hp : p.1 = k
    · simp [alookup, hp]
    · rw [alookup] at h
      rw [if_neg hp] at h
      simp only [List.map_cons, if_neg hp]
      rw [alookup, if_neg hp]
      exact ih h

theorem alookup_map_upd_ne {α : Type} (k k' : String) (v : α) (hne : k' ≠ k) :
    ∀ l : List (String × α),
      alookup (l.map (fun p => if p.1 = k then (k, v) else p)) k' = alookup l k' := by
  intro l
  induction l with
  | nil => simp
  | cons p rest ih =>
    by_cases hp : p.1 = k
    · simp only [List.map_cons, if_pos hp]
      rw [alookup, alookup, if_neg (fun g => hne g.symm), if_neg (fun g => hne (hp ▸ g).symm)]
      · exact ih
    · simp only [List.map_cons, if_neg hp]
      rw [alookup, alookup]
      by_cases hq : p.1 = k'
      · rw [if_pos hq, if_pos hq]
      · rw [if_neg hq, if_neg hq]; exact ih

theorem alookup_append_single_self {α : Type} (k : String) (v : α) :
    ∀ l : List (String × α), alookup l k = none → alookup (l ++ [(k, v)]) k = some v := by
  intro l
  induction l with
  | nil => intro _; simp [alookup]
  | cons p rest ih =>
    intro h
    rw [alookup] at h
    by_cases hp : p.1 = k
    · rw [if_pos hp] at h; exact absurd h (by simp)
    · rw [if_neg hp] at h
      show alookup (p :: (rest ++ [(k, v)])) k = some v
      rw [alookup, if_neg hp]
      exact ih h

theorem alookup_append_single_ne {α : Type} (k k' : String) (v : α) (hne : k' ≠ k) :
    ∀ l : List (String × α), alookup (l ++ [(k, v)]) k' = alookup l k' := by
  intro l
  induction l with
  | nil =>
    show alookup [(k, v)] k' = alookup [] k'
    rw [alookup, alookup]
    exact if_neg (fun g => hne g.symm)
  | cons p rest ih =>
    show alookup (p :: (rest ++ [(k, v)])) k' = _
    rw [alookup, alookup]
    by_cases hq : p.1 = k'
    · rw [if_pos hq, if_pos hq]
    · rw [if_neg hq, if_neg hq]; exact ih

theorem alookup_assocSet_self {α : Type} (l : List (String × α)) (k : String) (v : α) :
    alookup (assocSet l k v) k = some v := by
  rw [assocSet]
  by_cases h : (alookup l k).isSome
  · rw [if_pos h]; exact alookup_map_upd_self k v l h
  · rw [if_neg h]
    exact alookup_append_single_self k v l (by
      cases hx : alookup l k
      · rfl
      · rw [hx] at h; exact absurd rfl h)

theorem alookup_assocSet_ne {α : Type} (l : List (String × α)) (k k' : String) (v : α)
    (hne : k' ≠ k) : alookup (assocSet l k v) k' = alookup l k' := by
  rw [assocSet]
  by_cases h : (alookup l k).isSome
  · rw [if_pos h]; exact alookup_map_upd_ne k k' v hne l
  · rw [if_neg h]; exact alookup_append_single_ne k k' v hne l

/-- Claim C3, counterexample: the text `"hello\nworld"` contains no
occurrence of the heading marker `"##"`, yet
`OutputParser.parse_blocks` returns a non-empty mapping (the whole
text becomes one block) instead of the empty mapping the claim
requires. -/
theorem c3_counterexample :
    OutputParser.parse_blocks ("hello\nworld") = some [("hello", "world")] ∧
      strContainsSub ("hello\nworld") ("##") = false :=
  ⟨rfl, by decide⟩

/-- Claim C3 (amended): for every input text containing no occurrence
of the heading marker `"##"`, both block segmenters return an empty
mapping exactly when the text is whitespace-only; a non-blank text
without the marker is not dropped but treated as a single block. -/
theorem c3_theorem (text : String)
    (h : pyContainsL text.data headingMarker = false) :
    ((CodeParser.parse_blocks text = []) ↔ trimChars text.data = []) ∧
      ((OutputParser.parse_blocks text = some []) ↔ trimChars text.data = []) := by
  have hsplit : pySplitL headingMarker text.data = [text.data] :=
    pySplitL_no_sep '#' ['#'] text.data h
  rw [CodeParser.parse_blocks, OutputParser.parse_blocks, hsplit]
  by_cases ht : trimChars text.data = []
  · rw [CodeParser.cbsGo, if_pos ht, OutputParser.pbsGo, if_pos ht]
    rw [CodeParser.cbsGo, OutputParser.pbsGo]
    simp [ht]
  · rw [CodeParser.cbsGo, if_neg ht, OutputParser.pbsGo, if_neg ht]
    constructor
    · constructor
      · intro hc
        cases hn : splitFirstNl text.data with
        | none =>
          rw [hn] at hc
          simp [CodeParser.cbsGo, assocSet, alookup] at hc
        | some tc =>
          rw [hn] at hc
          simp [CodeParser.cbsGo, assocSet, alookup] at hc
      · intro hc; exact absurd hc ht
    · constructor
      · intro hc
        cases hn : splitFirstNl text.data with
        | none =>
          rw [hn] at hc
          exact absurd hc (by simp)
        | some tc =>
          rw [hn] at hc
          obtain ⟨t, c⟩ := tc
          dsimp only at hc
          cases hl : t.getLast? with
          | none => rw [hl] at hc; exact absurd hc (by simp)
          | some ch =>
            rw [hl] at hc
            simp [OutputParser.pbsGo, assocSet, alookup] at hc
      · intro hc; exact absurd hc ht

/-- Claim C3 (witness): the amended theorem applied to the concrete
non-blank marker-free text `"a"`. -/
theorem c3_witness :
    pyContainsL ("a").data headingMarker = false ∧
      (((CodeParser.parse_blocks ("a") = []) ↔ trimChars ("a").data = []) ∧
        ((OutputParser.parse_blocks ("a") = some []) ↔ trimChars ("a").data = [])) :=
  ⟨by decide, c3_theorem ("a") (by decide)⟩

theorem startsWithL_nil_cons (x : Char) (xs : List Char) :
    startsWithL [] (x :: xs) = false := by
  simp [startsWithL]

theorem fenceSearch_empty (lang : String) : fenceSearch lang ("") = none := by
  rw [fenceSearch]
  have hd : ("" : String).data = [] := rfl
  rw [hd]
  simp [List.findSome?, fenceLit, startsWithL]

theorem pbGo_no_match (block : String) :
    ∀ blocks : List (String × String),
      (∀ p ∈ blocks, pyContainsL p.1.data block.data = false) →
      CodeParser.pbGo block blocks = "" := by
  intro blocks
  induction blocks with
  | nil => intro _; rfl
  | cons p rest ih =>
    intro h
    obtain ⟨k, v⟩ := p
    rw [CodeParser.pbGo]
    rw [if_neg]
    · exact ih (fun q hq => h q (List.mem_cons_of_mem _ hq))
    · have := h (k, v) (List.mem_cons_self _ _)
      simp at this
      simp [this]

/-- Claim C5, counterexample: with a fence present in the full text
but no block title containing the requested title, the lenient
`CodeParser.parse_code` returns the empty string — it searches the
empty string produced by `parse_block`, not the full original text,
so the fence interior present in the text is not returned. -/
theorem c5_counterexample :
    CodeParser.parse_code ("Title") ("```python\ncode\n```") ("python") = "" ∧
      fenceSearch ("python") ("```python\ncode\n```") = some ("code\n") :=
  ⟨rfl, rfl⟩

/-- Claim C5 (amended): when a non-empty block title is requested and
no block title of the segmented text contains it as a substring, the
fence search operates on the empty string returned by `parse_block`
(not on the full original text), so `CodeParser.parse_code` returns
the empty string for every language tag. -/
theorem c5_theorem (block text lang : String) (hb : block ≠ "")
    (h : ∀ p ∈ CodeParser.parse_blocks text, pyContainsL p.1.data block.data = false) :
    CodeParser.parse_code block text lang = "" := by
  rw [CodeParser.parse_code]
  have hpb : CodeParser.parse_block block text = "" :=
    pbGo_no_match block (CodeParser.parse_blocks text) h
  rw [if_pos hb, hpb, fenceSearch_empty]

/-- Claim C5 (witness): the amended theorem applied to a concrete text
whose single block title does not contain the requested title. -/
theorem c5_witness :
    (("Z" : String) ≠ "") ∧ CodeParser.parse_code ("Z") ("## A\nb") ("") = "" :=
  ⟨by decide, c5_theorem ("Z") ("## A\nb") ("") (by decide) (by decide)⟩

/-- Claim C9, counterexample: on the non-blank input `"hello"`, whose
single segment has no internal line break, `OutputParser.parse_blocks`
does not return a mapping: the unpacking `block.split("\n", 1)` raises
(modelled by `none`), contradicting the claim that segmentation never
raises. -/
theorem c9_counterexample :
    OutputParser.parse_blocks ("hello") = none ∧
      splitFirstNl ("hello").data = none ∧ trimChars ("hello").data ≠ [] :=
  ⟨rfl, rfl, by decide⟩

/-- Claim C9 (amended): `CodeParser.parse_blocks` is total and maps a
non-blank marker-free segment with no internal line break to its
trimmed text as title with an empty body; the `OutputParser` variant
raises on exactly such a segment. -/
theorem c9_theorem (seg : String) (h1 : splitFirstNl seg.data = none)
    (h2 : trimChars seg.data ≠ []) (h3 : pyContainsL seg.data headingMarker = false) :
    CodeParser.parse_blocks ("##" ++ seg) = [(String.mk (trimChars seg.data), "")] ∧
      OutputParser.parse_blocks ("##" ++ seg) = none := by
  have hd : ("##" ++ seg).data = '#' :: '#' :: seg.data := by
    rw [String.data_append]
    rfl
  have hsplit : pySplitL headingMarker ("##" ++ seg).data = [[], seg.data] := by
    rw [hd]
    show pySplitL ('#' :: ['#']) (('#' :: ['#']) ++ seg.data) = _
    rw [pySplitL]
    have hlen : (('#' :: ['#']) ++ seg.data).length = seg.data.length + 2 := by simp
    rw [hlen]
    rw [show seg.data.length + 2 = (seg.data.length + 1) + 1 from rfl]
    rw [pySplitGo_sep_head]
    rw [pySplitGo_no_sep '#' ['#'] seg.data (seg.data.length + 1) [] h3]
    simp
  constructor
  · rw [CodeParser.parse_blocks, hsplit]
    rw [CodeParser.cbsGo, if_pos (by rfl)]
    rw [CodeParser.cbsGo, if_neg h2, h1]
    rw [CodeParser.cbsGo]
    rfl
  · rw [OutputParser.parse_blocks, hsplit]
    rw [OutputParser.pbsGo, if_pos (by rfl)]
    rw [OutputParser.pbsGo, if_neg h2, h1]

/-- Claim C9 (witness): the amended theorem applied to the concrete
segment `"hello"`. -/
theorem c9_witness :
    splitFirstNl ("hello").data = none ∧
      CodeParser.parse_blocks ("##" ++ "hello") = [("hello", "")] ∧
      OutputParser.parse_blocks ("##" ++ "hello") = none :=
  ⟨rfl, (c9_theorem ("hello") rfl (by decide) (by decide)).1,
    (c9_theorem ("hello") rfl (by decide) (by decide)).2⟩

theorem pdwmBlock_fst (mapping : List (String × TypeTag)) (p : String × String) :
    (pdwmBlock mapping p).1 = p.1 := by
  rw [pdwmBlock]
  cases alookup mapping p.1 with
  | none => rfl
  | some t => cases t <;> rfl

theorem alookup_map_pdwm_none (mapping : List (String × TypeTag)) (f : String) :
    ∀ bd : List (String × String), (∀ p ∈ bd, p.1 ≠ f) →
      alookup (bd.map (pdwmBlock mapping)) f = none := by
  intro bd
  induction bd with
  | nil => intro _; rfl
  | cons p rest ih =>
    intro h
    rw [List.map_cons, alookup]
    rw [if_neg]
    · exact ih (fun q hq => h q (List.mem_cons_of_mem _ hq))
    · rw [pdwmBlock_fst]
      exact h p (List.mem_cons_self _ _)

/-- Claim C6, counterexample: the declared field `"Task"` occurs as a
substring of the block title `"Task list"`, yet
`parse_data_with_mapping` looks fields up by exact title equality, so
the result carries the key `"Task list"` and no key `"Task"` —
contradicting the claim that fields are located by substring match of
the field name against block titles. -/
theorem c6_counterexample :
    parse_data_with_mapping ("[CONTENT]## Task list\na\nb[/CONTENT]")
        [("Task", TypeTag.tList)] =
      some [("Task list", FieldVal.fvStr ("a\nb"))] ∧
      strContainsSub ("Task list") ("Task") = true ∧
      alookup [("Task list", FieldVal.fvStr ("a\nb"))] ("Task") = none :=
  ⟨rfl, by decide, rfl⟩

/-- Claim C6 (amended): `parse_data_with_mapping` matches declared
fields against block titles by exact equality (the source's
`mapping.get(block)`), not by substring containment; every key of the
result is a block title, so a declared field equal to no block title
is omitted from the result entirely — it is never included with a
null or empty value. -/
theorem c6_theorem (data : String) (mapping : List (String × TypeTag))
    (bd : List (String × String)) (res : List (String × FieldVal)) (f : String)
    (h1 : OutputParser.parse_blocks (OutputParser.extract_content data ("CONTENT")) = some bd)
    (h2 : parse_data_with_mapping data mapping = some res)
    (h3 : ∀ p ∈ bd, p.1 ≠ f) :
    alookup res f = none := by
  rw [parse_data_with_mapping, h1] at h2
  have hres : res = bd.map (pdwmBlock mapping) := (Option.some.inj h2).symm
  rw [hres]
  exact alookup_map_pdwm_none mapping f bd h3

/-- Claim C6 (witness): the amended theorem applied to the concrete
counterexample data with the absent field `"Absent"`. -/
theorem c6_witness :
    alookup [("Task list", FieldVal.fvStr ("a\nb"))] ("Absent") = none :=
  c6_theorem ("[CONTENT]## Task list\na\nb[/CONTENT]") [("Task", TypeTag.tList)]
    [("Task list", "a\nb")] [("Task list", FieldVal.fvStr ("a\nb"))] ("Absent")
    rfl rfl (by decide)

/-- Claim C10: `parse_data_with_mapping` first restricts the input to
the `[CONTENT]`/`[/CONTENT]` span via `extract_content` and segments
that span; whenever it returns a result, the result has exactly one
key per block title of the span (in block order), and every block
whose title is not declared in the mapping appears with its
fence-stripped body passed through unchanged. -/
theorem c10_theorem (data : String) (mapping : List (String × TypeTag))
    (bd : List (String × String)) (res : List (String × FieldVal))
    (h1 : OutputParser.parse_blocks (OutputParser.extract_content data ("CONTENT")) = some bd)
    (h2 : parse_data_with_mapping data mapping = some res) :
    res.map Prod.fst = bd.map Prod.fst ∧
      ∀ t b, (t, b) ∈ bd → alookup mapping t = none →
        (t, FieldVal.fvStr (fenceOrSelf b)) ∈ res := by
  rw [parse_data_with_mapping, h1] at h2
  have hres : res = bd.map (pdwmBlock mapping) := (Option.some.inj h2).symm
  constructor
  · rw [hres, List.map_map]
    have : Prod.fst ∘ pdwmBlock mapping = Prod.fst :=
      funext (fun p => pdwmBlock_fst mapping p)
    rw [this]
  · intro t b hmem hnone
    rw [hres]
    have : pdwmBlock mapping (t, b) = (t, FieldVal.fvStr (fenceOrSelf b)) := by
      rw [pdwmBlock]
      show (match alookup mapping t with
        | some TypeTag.tList =>
          (t, match OutputParser.parse_file_list (fenceOrSelf b) with
              | some v => FieldVal.fvVal v
              | none => FieldVal.fvStr (fenceOrSelf b))
        | _ => (t, FieldVal.fvStr (fenceOrSelf b))) = _
      rw [hnone]
    rw [← this]
    exact List.mem_map_of_mem _ hmem

/-- Claim C10 (witness): the theorem applied to concrete data with one
undeclared block inside the content span. -/
theorem c10_witness :
    [("A", FieldVal.fvStr ("body"))].map Prod.fst = [("A", "body")].map Prod.fst ∧
      ("A", FieldVal.fvStr (fenceOrSelf ("body"))) ∈ [("A", FieldVal.fvStr ("body"))] :=
  ⟨(c10_theorem ("[CONTENT]\n## A\nbody\n[/CONTENT]") [] [("A", "body")]
      [("A", FieldVal.fvStr ("body"))] rfl rfl).1,
    (c10_theorem ("[CONTENT]\n## A\nbody\n[/CONTENT]") [] [("A", "body")]
      [("A", FieldVal.fvStr ("body"))] rfl rfl).2 ("A") ("body")
      (List.mem_singleton.mpr rfl) rfl⟩

/-- Claim C8: `extract_struct` slices from the first opening delimiter
to the last closing delimiter and parses the span as a literal — on
the claim's example the nested list (with an embedded map) is
recovered from the surrounding noise — and when either delimiter of
the requested shape is absent it returns an empty container of that
shape instead of raising. -/
theorem c8_theorem :
    extract_struct ("prefix [1, 2, [3, \"a\"], \x7b\"k\": 4\x7d] suffix") SType.sList =
      Except.ok (Value.vList [Value.vInt 1, Value.vInt 2,
        Value.vList [Value.vInt 3, Value.vStr ("a")],
        Value.vDict [(Value.vStr ("k"), Value.vInt 4)]]) ∧
      (∀ text : String,
        firstIdx '[' text.data = none ∨ lastIdx ']' text.data = none →
        extract_struct text SType.sList = Except.ok (Value.vList [])) ∧
      (∀ text : String,
        firstIdx '{' text.data = none ∨ lastIdx '}' text.data = none →
        extract_struct text SType.sDict = Except.ok (Value.vDict [])) := by
  refine ⟨rfl, ?_, ?_⟩
  · intro text h
    rw [extract_struct]
    simp only [openDelim, closeDelim]
    rcases h with h | h
    · rw [h]
      cases lastIdx ']' text.data <;> rfl
    · rw [h]
      cases firstIdx '[' text.data <;> rfl
  · intro text h
    rw [extract_struct]
    simp only [openDelim, closeDelim]
    rcases h with h | h
    · rw [h]
      cases lastIdx '}' text.data <;> rfl
    · rw [h]
      cases firstIdx '{' text.data <;> rfl

/-- Claim C8 (witness): the empty-container branches applied to a
concrete bracket-free text. -/
theorem c8_witness :
    extract_struct ("no brackets here") SType.sList = Except.ok (Value.vList []) ∧
      extract_struct ("no brackets here") SType.sDict = Except.ok (Value.vDict []) :=
  ⟨c8_theorem.2.1 ("no brackets here") (Or.inl rfl),
    c8_theorem.2.2 ("no brackets here") (Or.inl rfl)⟩

theorem parseF_val_lbrack (fuel : Nat) (t : List Char) (res : PRes × List Char)
    (h : parseF (fuel + 1) PMode.val ('[' :: t) = some res) :
    ∃ vs r, res = (PRes.rVal (Value.vList vs), r) := by
  have h2 : (match parseF fuel (PMode.items ']') t with
             | some (PRes.rVals vs, r) => some (PRes.rVal (Value.vList vs), r)
             | _ => none) = some res := h
  cases hp : parseF fuel (PMode.items ']') t with
  | none => rw [hp] at h2; exact absurd h2 (by simp)
  | some pr =>
    obtain ⟨prr, r⟩ := pr
    rw [hp] at h2
    cases prr with
    | rVal v => exact absurd h2 (by simp)
    | rVals vs => exact ⟨vs, r, (Option.some.inj h2).symm⟩
    | rPairs ps => exact absurd h2 (by simp)

theorem parseF_val_lbrace (fuel : Nat) (t : List Char) (res : PRes × List Char)
    (h : parseF (fuel + 1) PMode.val ('{' :: t) = some res) :
    (∃ ps r, res = (PRes.rVal (Value.vDict ps), r)) ∨
      (∃ vs r, res = (PRes.rVal (Value.vSet vs), r)) := by
  have h2 : (match skipWs t with
             | [] => none
             | c2 :: r2 =>
               if c2 = '}' then some (PRes.rVal (Value.vDict []), r2)
               else
                 match parseF fuel PMode.val t with
                 | some (PRes.rVal k, r3) =>
                   (match skipWs r3 with
                    | [] => none
                    | c3 :: r4 =>
                      if c3 = ':' then
                        (match parseF fuel PMode.val r4 with
                         | some (PRes.rVal v, r5) =>
                           (match parseF fuel PMode.dRest r5 with
                            | some (PRes.rPairs es, r6) =>
                              some (PRes.rVal (Value.vDict ((k, v) :: es)), r6)
                            | _ => none)
                         | _ => none)
                      else if c3 = ',' then
                        (match parseF fuel (PMode.items '}') r4 with
                         | some (PRes.rVals vs, r5) =>
                           some (PRes.rVal (Value.vSet (k :: vs)), r5)
                         | _ => none)
                      else if c3 = '}' then some (PRes.rVal (Value.vSet [k]), r4)
                      else none)
                 | _ => none) = some res := h
  cases hs : skipWs t with
  | nil => rw [hs] at h2; exact absurd h2 (by simp)
  | cons c2 r2 =>
    rw [hs] at h2
    dsimp only at h2
    by_cases hc2 : c2 = '}'
    · rw [if_pos hc2] at h2
      exact Or.inl ⟨[], r2, (Option.some.inj h2).symm⟩
    · rw [if_neg hc2] at h2
      cases hp : parseF fuel PMode.val t with
      | none => rw [hp] at h2; exact absurd h2 (by simp)
      | some pr =>
        rw [hp] at h2
        obtain ⟨prr, r3⟩ := pr
        cases prr with
        | rVals vs => exact absurd h2 (by simp)
        | rPairs ps => exact absurd h2 (by simp)
        | rVal k =>
          dsimp only at h2
          cases hs2 : skipWs r3 with
          | nil => rw [hs2] at h2; exact absurd h2 (by simp)
          | cons c3 r4 =>
            rw [hs2] at h2
            dsimp only at h2
            by_cases hc3 : c3 = ':'
            · rw [if_pos hc3] at h2
              cases hq : parseF fuel PMode.val r4 with
              | none => rw [hq] at h2; exact absurd h2 (by simp)
              | some qr =>
                rw [hq] at h2
                obtain ⟨qrr, r5⟩ := qr
                cases qrr with
                | rVals vs => exact absurd h2 (by simp)
                | rPairs ps => exact absurd h2 (by simp)
                | rVal v =>
                  dsimp only at h2
                  cases hd : parseF fuel PMode.dRest r5 with
                  | none => rw [hd] at h2; exact absurd h2 (by simp)
                  | some dr =>
                    rw [hd] at h2
                    obtain ⟨drr, r6⟩ := dr
                    cases drr with
                    | rVal v2 => exact absurd h2 (by simp)
                    | rVals vs => exact absurd h2 (by simp)
                    | rPairs es =>
                      exact Or.inl ⟨(k, v) :: es, r6, (Option.some.inj h2).symm⟩
            · rw [if_neg hc3] at h2
              by_cases hc3b : c3 = ','
              · rw [if_pos hc3b] at h2
                cases hq : parseF fuel (PMode.items '}') r4 with
                | none => rw [hq] at h2; exact absurd h2 (by simp)
                | some qr =>
                  rw [hq] at h2
                  obtain ⟨qrr, r5⟩ := qr
                  cases qrr with
                  | rVal v2 => exact absurd h2 (by simp)
                  | rPairs ps => exact absurd h2 (by simp)
                  | rVals vs =>
                    exact Or.inr ⟨k :: vs, r5, (Option.some.inj h2).symm⟩
              · rw [if_neg hc3b] at h2
                by_cases hc3c : c3 = '}'
                · rw [if_pos hc3c] at h2
                  exact Or.inr ⟨[k], r4, (Option.some.inj h2).symm⟩
                · rw [if_neg hc3c] at h2
                  exact absurd h2 (by simp)

theorem literalEvalL_lbrack (t : List Char) (v : Value)
    (h : literalEvalL ('[' :: t) = some v) :
    (∃ vs, v = Value.vList vs) ∨ (∃ vs, v = Value.vTuple vs) := by
  rw [literalEvalL] at h
  cases hp : parseF (4 * ('[' :: t).length + 4) PMode.val ('[' :: t) with
  | none => rw [hp] at h; exact absurd h (by simp)
  | some pr =>
    rw [hp] at h
    obtain ⟨prr, rest⟩ := pr
    have hp2 : parseF ((4 * ('[' :: t).length + 3) + 1) PMode.val ('[' :: t) =
        some (prr, rest) := hp
    obtain ⟨vs, r, hres⟩ := parseF_val_lbrack _ t (prr, rest) hp2
    rw [Prod.mk.injEq] at hres
    obtain ⟨hprr, hrest⟩ := hres
    subst hprr
    dsimp only at h
    cases hs : skipWs rest with
    | nil =>
      rw [hs] at h
      exact Or.inl ⟨vs, (Option.some.inj h).symm⟩
    | cons c r2 =>
      rw [hs] at h
      dsimp only at h
      by_cases hc : c = ','
      · rw [if_pos hc] at h
        cases hb : parseF (4 * ('[' :: t).length + 4) PMode.bareTail r2 with
        | none => rw [hb] at h; exact absurd h (by simp)
        | some br =>
          rw [hb] at h
          obtain ⟨brr, r3⟩ := br
          cases brr with
          | rVal v2 => exact absurd h (by simp)
          | rPairs ps => exact absurd h (by simp)
          | rVals vs2 =>
            dsimp only at h
            by_cases he : skipWs r3 = []
            · rw [if_pos he] at h
              exact Or.inr ⟨Value.vList vs :: vs2, (Option.some.inj h).symm⟩
            · rw [if_neg he] at h
              exact absurd h (by simp)
      · rw [if_neg hc] at h
        exact absurd h (by simp)

theorem literalEvalL_lbrace (t : List Char) (v : Value)
    (h : literalEvalL ('{' :: t) = some v) :
    (∃ ps, v = Value.vDict ps) ∨ (∃ vs, v = Value.vSet vs) ∨
      (∃ vs, v = Value.vTuple vs) := by
  rw [literalEvalL] at h
  cases hp : parseF (4 * ('{' :: t).length + 4) PMode.val ('{' :: t) with
  | none => rw [hp] at h; exact absurd h (by simp)
  | some pr =>
    rw [hp] at h
    obtain ⟨prr, rest⟩ := pr
    have hp2 : parseF ((4 * ('{' :: t).length + 3) + 1) PMode.val ('{' :: t) =
        some (prr, rest) := hp
    have hshape := parseF_val_lbrace _ t (prr, rest) hp2
    rcases hshape with ⟨ps, r, hres⟩ | ⟨vs, r, hres⟩ <;>
      (rw [Prod.mk.injEq] at hres
       obtain ⟨hprr, hrest⟩ := hres
       subst hprr
       dsimp only at h
       cases hs : skipWs rest with
       | nil =>
         rw [hs] at h
         first
         | exact Or.inl ⟨ps, (Option.some.inj h).symm⟩
         | exact Or.inr (Or.inl ⟨vs, (Option.some.inj h).symm⟩)
       | cons c r2 =>
         rw [hs] at h
         dsimp only at h
         by_cases hc : c = ','
         · rw [if_pos hc] at h
           cases hb : parseF (4 * ('{' :: t).length + 4) PMode.bareTail r2 with
           | none => rw [hb] at h; exact absurd h (by simp)
           | some br =>
             rw [hb] at h
             obtain ⟨brr, r3⟩ := br
             cases brr with
             | rVal v2 => exact absurd h (by simp)
             | rPairs ps2 => exact absurd h (by simp)
             | rVals vs2 =>
               dsimp only at h
               by_cases he : skipWs r3 = []
               · rw [if_pos he] at h
                 exact Or.inr (Or.inr ⟨_, (Option.some.inj h).symm⟩)
               · rw [if_neg he] at h
                 exact absurd h (by simp)
         · rw [if_neg hc] at h
           exact absurd h (by simp))

theorem firstIdx_drop (c : Char) :
    ∀ (cs : List Char) (s : Nat), firstIdx c cs = some s →
      ∃ t, cs.drop s = c :: t := by
  intro cs
  induction cs with
  | nil => intro s h; exact absurd h (by simp [firstIdx])
  | cons x xs ih =>
    intro s h
    rw [firstIdx] at h
    by_cases hx : x = c
    · rw [if_pos hx] at h
      have hs : s = 0 := (Option.some.inj h).symm
      subst hs; subst hx
      exact ⟨xs, rfl⟩
    · rw [if_neg hx] at h
      cases hf : firstIdx c xs with
      | none => rw [hf] at h; exact absurd h (by simp)
      | some i =>
        rw [hf] at h
        have hs : s = i + 1 := by
          simp at h
          omega
        subst hs
        obtain ⟨t, ht⟩ := ih i hf
        exact ⟨t, by simpa using ht⟩

/-- Claim C4: whenever the sliced first-opening-to-last-closing span
parses successfully as a literal but the parsed value does not have
the requested top-level shape, `extract_struct` fails with the
shape-mismatch error instead of returning the wrongly shaped value.
(With the span in hand, a list request can only ever parse to a list
or a tuple and a dict request to a dict, set or tuple, so the
wrongly-shaped cases all fall into the error branch of the source's
`isinstance(result, (list, dict))` test.) -/
theorem c4_theorem (text : String) (dt : SType) (s e : Nat) (v : Value)
    (h1 : firstIdx (openDelim dt) text.data = some s)
    (h2 : lastIdx (closeDelim dt) text.data = some e)
    (h3 : literalEvalL ((text.data.drop s).take (e + 1 - s)) = some v)
    (h4 : shapeMatches dt v = false) :
    extract_struct text dt = Except.error ExErr.shapeMismatch := by
  obtain ⟨t, ht⟩ := firstIdx_drop (openDelim dt) text.data s h1
  rw [extract_struct, h1, h2]
  dsimp only
  rw [h3]
  suffices hsh : (v.isList || v.isDict) = false by
    dsimp only
    rw [hsh]
    rfl
  cases hspan : e + 1 - s with
  | zero =>
    rw [ht, hspan] at h3
    exact absurd h3 (by rw [show literalEvalL (List.take 0 (openDelim dt :: t)) = none from rfl]; simp)
  | succ n =>
    rw [ht, hspan, List.take_succ_cons] at h3
    cases dt with
    | sList =>
      rcases literalEvalL_lbrack _ v h3 with ⟨vs, hv⟩ | ⟨vs, hv⟩
      · subst hv; exact absurd h4 (by simp [shapeMatches, Value.isList])
      · subst hv; rfl
    | sDict =>
      rcases literalEvalL_lbrace _ v h3 with ⟨ps, hv⟩ | ⟨vs, hv⟩ | ⟨vs, hv⟩
      · subst hv; exact absurd h4 (by simp [shapeMatches, Value.isDict])
      · subst hv; rfl
      · subst hv; rfl

/-- Claim C4 (witness): the set literal `{1, 2}` parses from a dict
request's span but is neither a list nor a dict, and `extract_struct`
errors with the shape mismatch. -/
theorem c4_witness :
    shapeMatches SType.sDict (Value.vSet [Value.vInt 1, Value.vInt 2]) = false ∧
      extract_struct ("\x7b1, 2\x7d") SType.sDict = Except.error ExErr.shapeMismatch :=
  ⟨rfl, c4_theorem ("\x7b1, 2\x7d") SType.sDict 0 5
    (Value.vSet [Value.vInt 1, Value.vInt 2]) rfl rfl rfl rfl⟩

/-- Claim C1: per queued filename, the generate callback is invoked on
the upstream document's content exactly when no derived task document
exists; when one exists, the result is instead produced by the merge
callback applied to the `NEW_REQ_TEMPLATE` context that places the
existing derived content under the `Legacy Content` heading followed
by the new upstream content under the `New Requirements` heading. -/
theorem c1_theorem (env : PipelineEnv) (repos : FileRepos) (f : String) (sd : Document)
    (p : Document × FileRepos)
    (h1 : alookup repos.systemDesigns f = some sd)
    (h2 : updateTasks env repos f = Except.ok p) :
    p.1.content = (match alookup repos.tasks f with
      | none => env.generate sd.content
      | some td => env.merge (NEW_REQ_TEMPLATE td.content sd.content)) := by
  rw [updateTasks, h1] at h2
  dsimp only at h2
  cases htd : alookup repos.tasks f with
  | none =>
    rw [htd] at h2
    dsimp only at h2
    split at h2
    · exact absurd h2 (by simp)
    · have hp := Except.ok.inj h2
      rw [← hp]
  | some td =>
    rw [htd] at h2
    dsimp only at h2
    split at h2
    · exact absurd h2 (by simp)
    · have hp := Except.ok.inj h2
      rw [← hp]

/-- Claim C1 (witness): with no derived document present, the produced
document's content is the generate callback applied to the upstream
content. -/
theorem c1_witness : wDoc.content = wEnv.generate wSd.content :=
  c1_theorem wEnv wRepos ("f") wSd (wDoc, wRepos1) rfl rfl

theorem updateTasks_missing (env : PipelineEnv) (repos : FileRepos) (f : String)
    (h : alookup repos.systemDesigns f = none) :
    updateTasks env repos f = Except.error PipeErr.missingUpstream := by
  rw [updateTasks, h]

theorem updateRequirements_sys (env : PipelineEnv) (rr : FileRepos) (doc : Document)
    (r2 : FileRepos) (h : updateRequirements env rr doc = Except.ok r2) :
    r2.systemDesigns = rr.systemDesigns := by
  rw [updateRequirements] at h
  cases hp : env.parsePackages doc.content with
  | none => rw [hp] at h; exact absurd h (by simp)
  | some pkgs =>
    rw [hp] at h
    dsimp only at h
    rw [← Except.ok.inj h]

theorem updateTasks_sys (env : PipelineEnv) (repos : FileRepos) (f : String)
    (d : Document) (r : FileRepos) (h : updateTasks env repos f = Except.ok (d, r)) :
    r.systemDesigns = repos.systemDesigns := by
  rw [updateTasks] at h
  cases hs : alookup repos.systemDesigns f with
  | none => rw [hs] at h; exact absurd h (by simp)
  | some sd =>
    rw [hs] at h
    dsimp only at h
    split at h
    · exact absurd h (by simp)
    · rename_i repos2 hur
      have hpair := Except.ok.inj h
      rw [Prod.mk.injEq] at hpair
      obtain ⟨_, hr⟩ := hpair
      rw [← hr]
      show repos2.systemDesigns = repos.systemDesigns
      rw [updateRequirements_sys env _ _ repos2 hur]

theorem runFold1_err (env : PipelineEnv) (f : String) :
    ∀ (l : List String) (repos : FileRepos) (acc : List (String × Document)),
      f ∈ l → alookup repos.systemDesigns f = none →
      isErrorE (runFold1 env l repos acc) = true := by
  intro l
  induction l with
  | nil => intro repos acc hf _; exact absurd hf (by simp)
  | cons g rest ih =>
    intro repos acc hf hmiss
    rw [runFold1]
    cases hu : updateTasks env repos g with
    | error e => rfl
    | ok dr =>
      obtain ⟨d, repos2⟩ := dr
      have hfg : f ≠ g := by
        intro heq
        subst heq
        rw [updateTasks_missing env repos f hmiss] at hu
        exact absurd hu (by simp)
      have hf2 : f ∈ rest := by
        cases List.mem_cons.mp hf with
        | inl h => exact absurd h hfg
        | inr h => exact h
      have hsys : repos2.systemDesigns = repos.systemDesigns :=
        updateTasks_sys env repos g d repos2 hu
      exact ih repos2 (assocSet acc g d) hf2 (by rw [hsys]; exact hmiss)

theorem runFold2_err (env : PipelineEnv) (f : String) :
    ∀ (l : List String) (repos : FileRepos) (acc : List (String × Document)),
      f ∈ l → alookup repos.systemDesigns f = none → alookup acc f = none →
      isErrorE (runFold2 env l repos acc) = true := by
  intro l
  induction l with
  | nil => intro repos acc hf _ _; exact absurd hf (by simp)
  | cons g rest ih =>
    intro repos acc hf hmiss hacc
    rw [runFold2]
    have hfg_of_skip : (alookup acc g).isSome → f ≠ g := by
      intro hsk heq
      subst heq
      rw [hacc] at hsk
      exact absurd hsk (by simp)
    by_cases hskip : (alookup acc g).isSome
    · rw [if_pos hskip]
      have hf2 : f ∈ rest := by
        cases List.mem_cons.mp hf with
        | inl h => exact absurd h (hfg_of_skip hskip)
        | inr h => exact h
      exact ih repos acc hf2 hmiss hacc
    · rw [if_neg hskip]
      cases hu : updateTasks env repos g with
      | error e => rfl
      | ok dr =>
        obtain ⟨d, repos2⟩ := dr
        have hfg : f ≠ g := by
          intro heq
          subst heq
          rw [updateTasks_missing env repos f hmiss] at hu
          exact absurd hu (by simp)
        have hf2 : f ∈ rest := by
          cases List.mem_cons.mp hf with
          | inl h => exact absurd h hfg
          | inr h => exact h
        have hsys : repos2.systemDesigns = repos.systemDesigns :=
          updateTasks_sys env repos g d repos2 hu
        have hacc2 : alookup (assocSet acc g d) f = none := by
          rw [alookup_assocSet_ne acc g f d hfg]
          exact hacc
        exact ih repos2 (assocSet acc g d) hf2 (by rw [hsys]; exact hmiss) hacc2

theorem runFold1_keys (env : PipelineEnv) :
    ∀ (l : List String) (repos : FileRepos) (acc : List (String × Document))
      (res : List (String × Document) × FileRepos),
      runFold1 env l repos acc = Except.ok res →
      ∀ k, (alookup res.1 k).isSome → (alookup acc k).isSome ∨ k ∈ l := by
  intro l
  induction l with
  | nil =>
    intro repos acc res h k hk
    rw [runFold1] at h
    rw [← Except.ok.inj h] at hk
    exact Or.inl hk
  | cons g rest ih =>
    intro repos acc res h k hk
    rw [runFold1] at h
    cases hu : updateTasks env repos g with
    | error e => rw [hu] at h; exact absurd h (by simp)
    | ok dr =>
      rw [hu] at h
      obtain ⟨d, repos2⟩ := dr
      cases ih repos2 (assocSet acc g d) res h k hk with
      | inr hmem => exact Or.inr (List.mem_cons_of_mem _ hmem)
      | inl hsk =>
        by_cases hkg : k = g
        · exact Or.inr (by rw [hkg]; exact List.mem_cons_self _ _)
        · rw [alookup_assocSet_ne acc g k d hkg] at hsk
          exact Or.inl hsk

theorem runFold1_sys (env : PipelineEnv) :
    ∀ (l : List String) (repos : FileRepos) (acc : List (String × Document))
      (res : List (String × Document) × FileRepos),
      runFold1 env l repos acc = Except.ok res →
      res.2.systemDesigns = repos.systemDesigns := by
  intro l
  induction l with
  | nil =>
    intro repos acc res h
    rw [runFold1] at h
    rw [← Except.ok.inj h]
  | cons g rest ih =>
    intro repos acc res h
    rw [runFold1] at h
    cases hu : updateTasks env repos g with
    | error e => rw [hu] at h; exact absurd h (by simp)
    | ok dr =>
      rw [hu] at h
      obtain ⟨d, repos2⟩ := dr
      rw [ih repos2 (assocSet acc g d) res h]
      exact updateTasks_sys env repos g d repos2 hu

/-- Claim C2 (amended): the absence of the upstream system-design
document for any queued filename is fatal for the whole batch, not
just for that file — the exception propagates out of
`WriteTasks.run`, no remaining filename is processed, and no mapping
is returned. -/
theorem c2_theorem (env : PipelineEnv) (csd ct : List String) (repos : FileRepos)
    (f : String) (hf : f ∈ csd ∨ f ∈ ct)
    (hmiss : alookup repos.systemDesigns f = none) :
    isErrorE (runWriteTasks env csd ct repos) = true := by
  rw [runWriteTasks]
  cases h1 : runFold1 env csd repos [] with
  | error e => rfl
  | ok ar =>
    obtain ⟨acc, repos1⟩ := ar
    have hfc : f ∉ csd := by
      intro hin
      have herr := runFold1_err env f csd repos [] hin hmiss
      rw [h1] at herr
      exact absurd herr (by simp [isErrorE])
    have hft : f ∈ ct := hf.resolve_left hfc
    have hsys : repos1.systemDesigns = repos.systemDesigns :=
      runFold1_sys env csd repos [] (acc, repos1) h1
    have hacc : alookup acc f = none := by
      cases hx : alookup acc f with
      | none => rfl
      | some d =>
        have hsk : (alookup acc f).isSome := by rw [hx]; rfl
        cases runFold1_keys env csd repos [] (acc, repos1) h1 f hsk with
        | inl h => exact absurd h (by simp [alookup])
        | inr h => exact absurd h hfc
    exact runFold2_err env f ct repos1 acc hft (by rw [hsys]; exact hmiss) hacc

/-- Claim C2, counterexample: with the queue `["missing", "f"]` where
only `"f"` has an upstream document, the run returns the propagated
error — the remaining filename `"f"` is not processed and no mapping
containing its document is returned, contradicting the claim that the
failure is fatal only for the affected file. -/
theorem c2_counterexample :
    runWriteTasks wEnv ["missing", "f"] [] wRepos = Except.error PipeErr.missingUpstream ∧
      (alookup wRepos.systemDesigns ("f")).isSome = true ∧
      alookup wRepos.systemDesigns ("missing") = none :=
  ⟨rfl, rfl, rfl⟩

/-- Claim C2 (witness): the amended theorem applied to a singleton
batch whose only filename has no upstream document. -/
theorem c2_witness :
    (("missing" : String) ∈ (["missing"] : List String) ∨
        ("missing" : String) ∈ ([] : List String)) ∧
      isErrorE (runWriteTasks wEnv ["missing"] [] wRepos) = true :=
  ⟨Or.inl (List.mem_singleton.mpr rfl),
    c2_theorem wEnv ["missing"] [] wRepos ("missing")
      (Or.inl (List.mem_singleton.mpr rfl)) rfl⟩

/-- Claim C7 (amended): `addAll` returns a duplicate-free list whose
set of entries is the union of all new items with the non-empty
newline-separated entries of the existing content (empty strings among
the new items are kept — the source filters emptiness only on the
existing lines); on the claim's example the set of lines is exactly
`{a, b, c}`; and an absent prior aggregation file is treated as empty
existing content by `updateRequirements`, not as an error. -/
theorem c7_theorem :
    (∀ (newItems : List String) (existing : String),
        (addAll newItems existing).Nodup ∧
          (∀ x, x ∈ addAll newItems existing ↔
            (x ∈ newItems ∨ (x ∈ pySplitlines existing ∧ x ≠ "")))) ∧
      (addAll ["b", "c"] ("a\nb")).toFinset = ({"a", "b", "c"} : Finset String) ∧
      (∀ (env : PipelineEnv) (repos : FileRepos) (doc : Document) (pkgs : List String),
        repos.requirements = none → env.parsePackages doc.content = some pkgs →
        updateRequirements env repos doc =
          Except.ok { repos with
            requirements := some (String.intercalate "\n" (addAll pkgs (""))) }) := by
  refine ⟨fun newItems existing => ⟨List.nodup_dedup _, fun x => ?_⟩, ?_, ?_⟩
  · rw [addAll]
    simp [List.mem_dedup, List.mem_append, List.mem_filter]
  · decide
  · intro env repos doc pkgs h1 h2
    rw [updateRequirements, h2, h1]

/-- Claim C7, counterexample: an empty string among the new items is
kept by `addAll` (the source filters empty entries only from the
existing lines), contradicting the claim that the result is the union
of the non-empty new items. -/
theorem c7_counterexample :
    addAll [""] ("") = [""] ∧ ("" ∈ addAll [""] ("")) :=
  ⟨rfl, by rw [show addAll [""] ("") = [""] from rfl]; exact List.mem_singleton.mpr rfl⟩

/-- Claim C7 (witness): the absent-file branch of the amended theorem
applied to the concrete sample state. -/
theorem c7_witness :
    updateRequirements wEnv wRepos wDoc =
      Except.ok { wRepos with
        requirements := some (String.intercalate "\n" (addAll [] (""))) } :=
  c7_theorem.2.2 wEnv wRepos wDoc [] rfl rfl
